import Mathlib

/-!
Shallow embedding of the Dify RAG connector (`src/rag/difyflow.py`).

Python floats (similarity scores) are modelled as rationals (`ℚ`); the code
only copies and compares scores, so ordering behaviour is preserved.
Python dictionaries (`doc_map`) are modelled as insertion-ordered association
lists, matching CPython's insertion-ordered `dict` semantics.  HTTP calls are
abstracted into outcome parameters: a per-knowledge-base fetch oracle for
`POST /datasets/{id}/retrieve` and a directory outcome for `GET /datasets`.
Raised exceptions are modelled with `Except`; `None` with `Option`.
-/

deriving instance DecidableEq for Except

namespace DifyFlow

/-- Canonical scored passage (`Chunk` of `src/rag/retriever.py`). -/
structure Chunk where
  content : String
  similarity : ℚ
deriving DecidableEq, Repr

/-- Canonical document: a group of chunks with a synthesized id. -/
structure Document where
  id : String
  title : String
  chunks : List Chunk
deriving DecidableEq, Repr

/-- Addressable reference to a knowledge base. -/
structure Resource where
  uri : String
  title : String
  description : String
deriving DecidableEq, Repr

/-! Model of Python `urllib.parse.urlparse`, restricted to the components the
code reads: `scheme`, `netloc` and `path`.  The scheme is the longest prefix
of scheme characters before the first `:` (starting with a letter), lowered;
a leading `//` introduces the netloc, which extends to the next `/`, `?` or
`#`; the path is the rest up to the query or fragment. -/

/-- Characters allowed in a URL scheme (Python `scheme_chars`). -/
def schemeChar (c : Char) : Bool :=
  c.isAlpha || c.isDigit || c == '+' || c == '-' || c == '.'

/-- Walk to the first `:`; fail if a non-scheme character comes first. -/
def splitSchemeGo (acc : List Char) : List Char → Option (List Char × List Char)
  | [] => none
  | c :: cs =>
    if c = ':' then some (acc.reverse, cs)
    else if schemeChar c then splitSchemeGo (c :: acc) cs
    else none

/-- Split off the (lowercased) scheme, as Python `urlsplit` does. -/
def splitScheme (l : List Char) : List Char × List Char :=
  match l with
  | [] => ([], [])
  | c :: cs =>
    if c.isAlpha then
      match splitSchemeGo [] (c :: cs) with
      | some (sch, rest) => (sch.map Char.toLower, rest)
      | none => ([], c :: cs)
    else ([], c :: cs)

/-- Netloc extends to the next `/`, `?` or `#` (Python `_splitnetloc`). -/
def splitNetloc : List Char → List Char × List Char
  | [] => ([], [])
  | c :: cs =>
    if c = '/' ∨ c = '?' ∨ c = '#' then ([], c :: cs)
    else
      match splitNetloc cs with
      | (n, r) => (c :: n, r)

/-- Drop the fragment (after `#`) and then the query (after `?`). -/
def cleanPath (l : List Char) : List Char :=
  (l.takeWhile (fun c => decide (c ≠ '#'))).takeWhile (fun c => decide (c ≠ '?'))

/-- Parsed URL components. -/
structure UrlParts where
  scheme : List Char
  netloc : List Char
  path : List Char
deriving DecidableEq, Repr

/-- Assemble the components once the scheme has been split off. -/
def urlparseAux (sch rest : List Char) : UrlParts :=
  match rest with
  | '/' :: '/' :: r => ⟨sch, (splitNetloc r).1, cleanPath (splitNetloc r).2⟩
  | _ => ⟨sch, [], cleanPath rest⟩

/-- Model of `urllib.parse.urlparse` on the characters of the URI. -/
def urlparse (l : List Char) : UrlParts :=
  urlparseAux (splitScheme l).1 (splitScheme l).2

/-- Python `str.split(sep)` for a one-character separator. -/
def pySplit (sep : Char) : List Char → List (List Char)
  | [] => [[]]
  | c :: cs =>
    if c = sep then [] :: pySplit sep cs
    else
      match pySplit sep cs with
      | [] => [[c]]
      | h :: t => (c :: h) :: t

/-- Lenient URI decoder `DifyFlowProvider._parse_uri`: `None` when the scheme
is not `dify`, else the last path segment.  It is total (never raises). -/
def _parse_uri (uri : String) : Option String :=
  if (urlparse uri.data).scheme = "dify".data then
    some ⟨(pySplit '/' (urlparse uri.data).path).getLastD []⟩
  else none

/-- Error raised by the strict document-URI decoder (`ValueError` carrying the
offending URI in the Python source). -/
inductive InvalidURIError where
  | invalidScheme (uri : String)
  | invalidFormat (uri : String)
deriving DecidableEq, Repr

/-- Strict module-level `parse_uri`: expects `knowledge_base` as the second
path segment and an optional `document/{docId}` tail. -/
def parse_uri (uri : String) : Except InvalidURIError (String × String) :=
  if (urlparse uri.data).scheme = "dify".data then
    let parts := pySplit '/' (urlparse uri.data).path
    if parts.length < 3 ∨ parts.getD 1 [] ≠ "knowledge_base".data then
      .error (.invalidFormat uri)
    else
      .ok (⟨parts.getD 2 []⟩,
        if 5 ≤ parts.length ∧ parts.getD 3 [] = "document".data then
          (⟨parts.getD 4 []⟩ : String)
        else "")
  else .error (.invalidScheme uri)

/-! Response normalizer `_parse_dify_response`.  A raw record is modelled with
the four fields the code extracts (each already defaulted: `record.get` with
`""` / `0.0` defaults never fails in the source). -/

/-- One raw retrieval record: `score` plus the fields read from `segment`. -/
structure RawRecord where
  score : ℚ
  document_id : String
  document_name : String
  content : String
deriving DecidableEq, Repr

/-- Raw body of a successful `POST /datasets/{id}/retrieve`. -/
structure DifyResponse where
  records : List RawRecord
deriving DecidableEq, Repr

/-- Synthesized document key `f"{kb}_{original}_{offset + len(doc_map)}"`. -/
def mkDocId (kb originalId : String) (n : Nat) : String :=
  kb ++ "_" ++ originalId ++ "_" ++ Nat.repr n

/-- Document title `f"[{kb}] {name}"` when a knowledge-base id is known. -/
def mkDocTitle (kb name : String) : String :=
  if kb ≠ "" then "[" ++ kb ++ "] " ++ name else name

/-- `doc_map[key].chunks.append(chunk)` on the association-list model. -/
def addChunkToMap (m : List (String × Document)) (key : String) (c : Chunk) :
    List (String × Document) :=
  m.map fun p => if p.1 = key then (p.1, { p.2 with chunks := p.2.chunks ++ [c] }) else p

/-- Processing of one record in `_parse_dify_response`: synthesize the key,
create the document on first sighting, then append the chunk. -/
def parseStep (kb : String) (off : Nat) (m : List (String × Document))
    (r : RawRecord) : List (String × Document) :=
  let key := mkDocId kb r.document_id (off + m.length)
  let m1 :=
    if m.any (fun p => decide (p.1 = key)) then m
    else m ++ [(key, { id := key, title := mkDocTitle kb r.document_name, chunks := [] })]
  addChunkToMap m1 key { content := r.content, similarity := r.score }

/-- The record loop of `_parse_dify_response`. -/
def parseLoop (kb : String) (off : Nat) :
    List RawRecord → List (String × Document) → List (String × Document)
  | [], m => m
  | r :: rs, m => parseLoop kb off rs (parseStep kb off m r)

/-- `DifyFlowProvider._parse_dify_response`: normalize one raw response into
documents, returned in insertion order (`list(doc_map.values())`). -/
def _parse_dify_response (resp : DifyResponse) (kb : String) (off : Nat) : List Document :=
  (parseLoop kb off resp.records []).map (fun p => p.2)

/-! Knowledge-base directory `list_resources`. -/

/-- One dataset entry of the `GET /datasets` body. -/
structure Dataset where
  id : String
  name : String
  description : String
deriving DecidableEq, Repr

/-- Body of a successful `GET /datasets`. -/
structure DatasetsResponse where
  data : List Dataset
deriving DecidableEq, Repr

/-- Outcome of the directory HTTP call. -/
inductive DirOutcome where
  | ok (resp : DatasetsResponse)
  | httpError (status : Nat)
  | netError
deriving DecidableEq, Repr

/-- Python `sub in s` (substring containment). -/
def pyIn (sub s : String) : Bool :=
  s.data.tails.any (fun t => sub.data.isPrefixOf t)

/-- Python `str.lower()`, modelled characterwise. -/
def pyLower (s : String) : String := ⟨s.data.map Char.toLower⟩

/-- The client-side filter of `list_resources`: a dataset is kept unless the
query is truthy and misses both the name and the description. -/
def keepDataset (query : Option String) (ds : Dataset) : Bool :=
  match query with
  | none => true
  | some q =>
    if q = "" then true
    else pyIn (pyLower q) (pyLower ds.name) || pyIn (pyLower q) (pyLower ds.description)

/-- Resource built from one dataset entry. -/
def datasetResource (ds : Dataset) : Resource :=
  { uri := "dify://dataset/" ++ ds.id, title := ds.name, description := ds.description }

/-- `DifyFlowProvider.list_resources`: list datasets, double-filter client
side, fail on non-success status or a transport error. -/
def list_resources (dir : DirOutcome) (query : Option String) :
    Except String (List Resource) :=
  match dir with
  | .ok resp => .ok ((resp.data.filter (keepDataset query)).map datasetResource)
  | .httpError _ => .error "Failed to list Dify datasets"
  | .netError => .error "Network error while listing Dify datasets"

/-! Fan-out aggregator `query_relevant_documents`. -/

/-- Provider configuration (`page_size`, `max_knowledge_bases`). -/
structure DifyConfig where
  page_size : Nat
  max_knowledge_bases : Nat
deriving DecidableEq, Repr

/-- Outcome of one `POST /datasets/{id}/retrieve` call; `ok` means HTTP 200
with a parsed body, anything else is skipped by the aggregation loop. -/
inductive QueryOutcome where
  | ok (resp : DifyResponse)
  | httpError (status : Nat)
  | netError
deriving DecidableEq, Repr

/-- Call-scoped errors raised by `query_relevant_documents`. -/
inductive RetrieveError where
  | directoryFailure (msg : String)
  | noKnowledgeBases
deriving DecidableEq, Repr

/-- `if kb_id and kb_id not in knowledge_base_ids: append` on one decoded id. -/
def addKbId (ids : List String) (kb : Option String) : List String :=
  match kb with
  | some k => if k ≠ "" ∧ k ∉ ids then ids ++ [k] else ids
  | none => ids

/-- Decode a resource list into unique, non-empty ids in first-seen order. -/
def collectKbIds (resources : List Resource) : List String :=
  resources.foldl (fun ids r => addKbId ids (_parse_uri r.uri)) []

/-- Target resolution of `query_relevant_documents`: explicit resources when
given, else the directory listing truncated to `max_knowledge_bases`. -/
def resolvedIds (cfg : DifyConfig) (resources : List Resource) (dir : DirOutcome) :
    Except RetrieveError (List String) :=
  match resources with
  | [] =>
    match list_resources dir none with
    | .error e => .error (.directoryFailure e)
    | .ok allRes => .ok (collectKbIds (allRes.take cfg.max_knowledge_bases))
  | _ => .ok (collectKbIds resources)

/-- Whether the per-source query of one knowledge base succeeds. -/
def succeedsB (fetch : String → QueryOutcome) (kb : String) : Bool :=
  match fetch kb with
  | .ok _ => true
  | _ => false

/-- The fan-out loop: accumulate normalized documents source by source,
advancing the id-offset counter by the number of documents produced; a
failed source is skipped and contributes nothing. -/
def aggregateDocs (fetch : String → QueryOutcome) : List String → Nat → List Document
  | [], _ => []
  | kb :: rest, ctr =>
    match fetch kb with
    | .ok resp =>
      let ds := _parse_dify_response resp kb ctr
      ds ++ aggregateDocs fetch rest (ctr + ds.length)
    | _ => aggregateDocs fetch rest ctr

/-- Sort key: `max(chunk.similarity for chunk in doc.chunks) if doc.chunks
else 0`. -/
def docScore (d : Document) : ℚ :=
  match d.chunks with
  | [] => 0
  | c :: cs => cs.foldl (fun m x => max m x.similarity) c.similarity

/-- Stable descending insertion: a document goes in front of the first entry
whose key is not larger.  A stable descending sort is extensionally unique,
so this matches Python's `list.sort(key=..., reverse=True)`. -/
def insertDesc (f : Document → ℚ) (x : Document) : List Document → List Document
  | [] => [x]
  | y :: ys => if f y ≤ f x then x :: y :: ys else y :: insertDesc f x ys

/-- Stable descending sort by a rational key. -/
def sortByDesc (f : Document → ℚ) : List Document → List Document
  | [] => []
  | x :: xs => insertDesc f x (sortByDesc f xs)

/-- `DifyFlowProvider.query_relevant_documents`: resolve targets, fan out with
failure isolation, sort by max chunk similarity descending, truncate to
`page_size * len(knowledge_base_ids)`. -/
def query_relevant_documents (cfg : DifyConfig) (fetch : String → QueryOutcome)
    (resources : List Resource) (dir : DirOutcome) : Except RetrieveError (List Document) :=
  match resolvedIds cfg resources dir with
  | .error e => .error e
  | .ok ids =>
    if ids = [] then .error .noKnowledgeBases
    else .ok ((sortByDesc docScore (aggregateDocs fetch ids 0)).take (cfg.page_size * ids.length))

/-! Auxiliary definitions for the verification below. -/

/-- Numeric value of a decimal digit character. -/
def digitVal (c : Char) : Nat := c.toNat - 48

/-- Read a most-significant-first decimal digit string. -/
def digitsToNat (l : List Char) : Nat := l.foldl (fun a c => a * 10 + digitVal c) 0

/-- The decimal number after the last underscore of a string.  Synthesized
document ids end in `_{n}`, and `n` recovers the global creation index. -/
def tailNum (s : String) : Nat :=
  digitsToNat (s.data.reverse.takeWhile (fun c => decide (c ≠ '_'))).reverse

/-- Invariant of the normalizer's document map: entry `i` is a document whose
id equals its key, and the key's numeric suffix is `off + i`. -/
def MapInv (off : Nat) (m : List (String × Document)) : Prop :=
  ∀ i (h : i < m.length), m[i].2.id = m[i].1 ∧ tailNum m[i].1 = off + i

/-! Concrete inputs used by the witness theorems. -/

/-- Default configuration: `page_size = 10`, `max_knowledge_bases = 10`. -/
def exCfg : DifyConfig := ⟨10, 10⟩

/-- Two explicitly targeted knowledge bases. -/
def exResources : List Resource :=
  [⟨"dify://dataset/kbA", "KB A", "alpha base"⟩,
   ⟨"dify://dataset/kbB", "KB B", "beta base"⟩]

/-- Response of `kbA`: two records sharing `document_id = d1`. -/
def exRespA : DifyResponse :=
  ⟨[⟨mkRat 9 10, "d1", "Doc One", "first passage"⟩,
    ⟨mkRat 4 10, "d1", "Doc One", "second passage"⟩]⟩

/-- Response of `kbB`: one record for `document_id = d1`. -/
def exRespB : DifyResponse :=
  ⟨[⟨mkRat 7 10, "d1", "Doc Two", "third passage"⟩]⟩

/-- Directory outcome; unused on the explicit-resource path. -/
def exDir : DirOutcome := .netError

/-- Fetch oracle with both sources healthy. -/
def exFetch : String → QueryOutcome := fun kb =>
  if kb = "kbA" then .ok exRespA else if kb = "kbB" then .ok exRespB else .netError

/-- Fetch oracle where `kbB` suffers a transport error. -/
def exFetchFail : String → QueryOutcome := fun kb =>
  if kb = "kbB" then .netError else exFetch kb

/-- Fetch oracle where every source fails. -/
def exFetchDown : String → QueryOutcome := fun _ => .netError

/-- A resource list none of whose URIs decodes to a knowledge-base id. -/
def exBadResources : List Resource := [⟨"https://dataset/abc123", "web", "not dify"⟩]

/-- Directory body used by the listing witness. -/
def exDatasets : DatasetsResponse :=
  ⟨[⟨"1", "Alpha One", "general"⟩, ⟨"2", "Two", "beta topics"⟩]⟩

/-- Three explicitly targeted knowledge bases, more than a cap of one. -/
def exThreeResources : List Resource :=
  [⟨"dify://dataset/kb1", "1", ""⟩, ⟨"dify://dataset/kb2", "2", ""⟩,
   ⟨"dify://dataset/kb3", "3", ""⟩]

/-- First document produced from `exRespA` (score 9/10). -/
def exDocA0 : Document := ⟨"kbA_d1_0", "[kbA] Doc One", [⟨"first passage", mkRat 9 10⟩]⟩

/-- Second document produced from `exRespA` (score 4/10). -/
def exDocA1 : Document := ⟨"kbA_d1_1", "[kbA] Doc One", [⟨"second passage", mkRat 4 10⟩]⟩

/-- Document produced from `exRespB` (score 7/10, offset 2). -/
def exDocB2 : Document := ⟨"kbB_d1_2", "[kbB] Doc Two", [⟨"third passage", mkRat 7 10⟩]⟩

/-! Decimal representation: `Nat.repr` via `Nat.toDigits` round-trips through
`digitsToNat` and never contains an underscore. -/

theorem toDigitsCore_append (fuel : Nat) : ∀ (n : Nat) (ds : List Char),
    Nat.toDigitsCore 10 fuel n ds = Nat.toDigitsCore 10 fuel n [] ++ ds := by
  induction fuel with
  | zero => intro n ds; simp [Nat.toDigitsCore]
  | succ f ih =>
    intro n ds
    simp only [Nat.toDigitsCore]
    by_cases h : n / 10 = 0
    · simp [h]
    · simp only [if_neg h]
      rw [ih (n / 10) (Nat.digitChar (n % 10) :: ds), ih (n / 10) [Nat.digitChar (n % 10)]]
      simp

theorem toDigitsCore_fuel (f : Nat) : ∀ (g n : Nat) (ds : List Char),
    n < f → n < g → Nat.toDigitsCore 10 f n ds = Nat.toDigitsCore 10 g n ds := by
  induction f with
  | zero => omega
  | succ f ih =>
    intro g n ds hf hg
    match g, hg with
    | g + 1, _ =>
      simp only [Nat.toDigitsCore]
      by_cases h : n / 10 = 0
      · simp [h]
      · simp only [if_neg h]
        exact ih g (n / 10) _ (by omega) (by omega)

theorem toDigits_eq (n : Nat) :
    Nat.toDigits 10 n =
      (if n < 10 then [] else Nat.toDigits 10 (n / 10)) ++ [Nat.digitChar (n % 10)] := by
  by_cases h : n / 10 = 0
  · rw [if_pos (by omega)]
    show Nat.toDigitsCore 10 (n + 1) n [] = [Nat.digitChar (n % 10)]
    simp [Nat.toDigitsCore, h]
  · rw [if_neg (by omega)]
    show Nat.toDigitsCore 10 (n + 1) n [] = _
    simp only [Nat.toDigitsCore, if_neg h]
    rw [toDigitsCore_append]
    congr 1
    exact toDigitsCore_fuel n (n / 10 + 1) (n / 10) [] (by omega) (by omega)

theorem digitVal_digitChar : ∀ d : Nat, d < 10 → digitVal (Nat.digitChar d) = d := by decide

theorem digitChar_ne_underscore : ∀ d : Nat, d < 10 → Nat.digitChar d ≠ '_' := by decide

theorem digitsToNat_append_one (l : List Char) (c : Char) :
    digitsToNat (l ++ [c]) = digitsToNat l * 10 + digitVal c := by
  simp [digitsToNat, List.foldl_append]

theorem digitsToNat_toDigits (n : Nat) : digitsToNat (Nat.toDigits 10 n) = n := by
  induction n using Nat.strong_induction_on with
  | _ n ih =>
    rw [toDigits_eq]
    by_cases h : n < 10
    · rw [if_pos h, List.nil_append]
      have : digitsToNat [Nat.digitChar (n % 10)] = digitVal (Nat.digitChar (n % 10)) := by
        simp [digitsToNat, digitVal]
      rw [this, digitVal_digitChar (n % 10) (by omega)]
      omega
    · rw [if_neg h, digitsToNat_append_one,
        ih (n / 10) (by omega), digitVal_digitChar (n % 10) (by omega)]
      omega

theorem toDigits_ne_underscore (n : Nat) : ∀ c ∈ Nat.toDigits 10 n, c ≠ '_' := by
  induction n using Nat.strong_induction_on with
  | _ n ih =>
    rw [toDigits_eq]
    intro c hc
    rcases List.mem_append.mp hc with h | h
    · by_cases hn : n < 10
      · rw [if_pos hn] at h; cases h
      · rw [if_neg hn] at h
        exact ih (n / 10) (by omega) c h
    · have : c = Nat.digitChar (n % 10) := by simpa using h
      rw [this]
      exact digitChar_ne_underscore (n % 10) (by omega)

theorem takeWhile_append_all {p : Char → Bool} (a b : List Char)
    (h : ∀ x ∈ a, p x = true) : (a ++ b).takeWhile p = a ++ b.takeWhile p := by
  induction a with
  | nil => rfl
  | cons x xs ih =>
    rw [List.cons_append, List.takeWhile_cons, h x (by simp),
      ih (fun y hy => h y (by simp [hy]))]
    simp

theorem takeWhile_to_underscore (d x : List Char) (h : ∀ c ∈ d, c ≠ '_') :
    (d ++ '_' :: x).takeWhile (fun c => decide (c ≠ '_')) = d := by
  rw [takeWhile_append_all d ('_' :: x) (fun c hc => by simpa using h c hc)]
  simp [List.takeWhile_cons]

theorem data_append (a b : String) : (a ++ b).data = a.data ++ b.data := rfl

theorem repr_data (n : Nat) : (Nat.repr n).data = Nat.toDigits 10 n := rfl

theorem mkDocId_data (kb oid : String) (n : Nat) :
    (mkDocId kb oid n).data
      = kb.data ++ '_' :: (oid.data ++ '_' :: Nat.toDigits 10 n) := by
  show (kb ++ "_" ++ oid ++ "_" ++ Nat.repr n).data = _
  rw [data_append, data_append, data_append, data_append, repr_data]
  simp

theorem tailNum_mkDocId (kb oid : String) (n : Nat) : tailNum (mkDocId kb oid n) = n := by
  have hd : (mkDocId kb oid n).data.reverse
      = (Nat.toDigits 10 n).reverse ++ '_' :: (oid.data.reverse ++ '_' :: kb.data.reverse) := by
    rw [mkDocId_data]
    simp
  unfold tailNum
  rw [hd, takeWhile_to_underscore _ _
    (fun c hc => toDigits_ne_underscore n c (List.mem_reverse.mp hc))]
  rw [List.reverse_reverse, digitsToNat_toDigits]

/-! Properties of the stable descending insertion sort. -/

theorem insertDesc_perm (f : Document → ℚ) (x : Document) (l : List Document) :
    (insertDesc f x l).Perm (x :: l) := by
  induction l with
  | nil => exact List.Perm.refl _
  | cons y ys ih =>
    unfold insertDesc
    by_cases h : f y ≤ f x
    · rw [if_pos h]
    · rw [if_neg h]
      exact (ih.cons y).trans (List.Perm.swap x y ys)

theorem sortByDesc_perm (f : Document → ℚ) (l : List Document) :
    (sortByDesc f l).Perm l := by
  induction l with
  | nil => exact List.Perm.refl _
  | cons x xs ih => exact (insertDesc_perm f x (sortByDesc f xs)).trans (ih.cons x)

theorem mem_insertDesc {f : Document → ℚ} {x z : Document} {l : List Document} :
    z ∈ insertDesc f x l ↔ z = x ∨ z ∈ l := by
  rw [(insertDesc_perm f x l).mem_iff]
  simp

theorem insertDesc_sorted {f : Document → ℚ} {x : Document} {l : List Document}
    (h : l.Pairwise (fun a b => f b ≤ f a)) :
    (insertDesc f x l).Pairwise (fun a b => f b ≤ f a) := by
  induction l with
  | nil => simp [insertDesc]
  | cons y ys ih =>
    rcases List.pairwise_cons.mp h with ⟨hy, hys⟩
    unfold insertDesc
    by_cases hc : f y ≤ f x
    · rw [if_pos hc]
      refine List.pairwise_cons.mpr ⟨?_, h⟩
      intro z hz
      rcases List.mem_cons.mp hz with rfl | hz
      · exact hc
      · exact le_trans (hy z hz) hc
    · rw [if_neg hc]
      refine List.pairwise_cons.mpr ⟨?_, ih hys⟩
      intro z hz
      rcases mem_insertDesc.mp hz with rfl | hz
      · exact le_of_lt (lt_of_not_le hc)
      · exact hy z hz

theorem sortByDesc_sorted (f : Document → ℚ) (l : List Document) :
    (sortByDesc f l).Pairwise (fun a b => f b ≤ f a) := by
  induction l with
  | nil => simp [sortByDesc]
  | cons x xs ih => exact insertDesc_sorted ih

theorem insertDesc_filter (f : Document → ℚ) (k : ℚ) (x : Document) (l : List Document) :
    (insertDesc f x l).filter (fun d => decide (f d = k))
      = (if f x = k then [x] else []) ++ l.filter (fun d => decide (f d = k)) := by
  induction l with
  | nil =>
    by_cases h : f x = k <;> simp [insertDesc, h]
  | cons y ys ih =>
    unfold insertDesc
    by_cases hc : f y ≤ f x
    · rw [if_pos hc]
      by_cases h : f x = k <;> simp [List.filter_cons, h]
    · rw [if_neg hc]
      rw [List.filter_cons, ih]
      by_cases hx : f x = k
      · have hy : ¬ (f y = k) := fun hy => hc (le_of_eq (hy.trans hx.symm))
        simp [hx, hy, List.filter_cons]
      · simp [hx, List.filter_cons]

theorem sortByDesc_filter (f : Document → ℚ) (l : List Document) (k : ℚ) :
    (sortByDesc f l).filter (fun d => decide (f d = k))
      = l.filter (fun d => decide (f d = k)) := by
  induction l with
  | nil => rfl
  | cons x xs ih =>
    show (insertDesc f x (sortByDesc f xs)).filter _ = _
    rw [insertDesc_filter, ih, List.filter_cons]
    by_cases h : f x = k <;> simp [h]

theorem filter_take_isPrefix {α : Type} (p : α → Bool) (l : List α) (n : Nat) :
    List.IsPrefix ((l.take n).filter p) (l.filter p) := by
  induction l generalizing n with
  | nil => simp
  | cons x xs ih =>
    cases n with
    | zero => simp
    | succ n =>
      rw [List.take_succ_cons, List.filter_cons, List.filter_cons]
      by_cases h : p x
      · rw [if_pos h, if_pos h]
        obtain ⟨t, ht⟩ := ih n
        exact ⟨t, by rw [← ht]; rfl⟩
      · rw [if_neg h, if_neg h]
        exact ih n

/-! The document map of the normalizer satisfies `MapInv`: every record
creates a fresh entry whose key carries the next numeric suffix, so document
ids are pairwise distinct with globally increasing suffixes. -/

theorem addChunkToMap_length (m : List (String × Document)) (key : String) (c : Chunk) :
    (addChunkToMap m key c).length = m.length := by
  simp [addChunkToMap]

theorem mapInv_addChunk {off : Nat} {m : List (String × Document)} (key : String) (c : Chunk)
    (h : MapInv off m) : MapInv off (addChunkToMap m key c) := by
  intro i hi
  have hi' : i < m.length := by simpa [addChunkToMap_length] using hi
  have hget : (addChunkToMap m key c)[i]
      = if m[i].1 = key
        then (m[i].1, { m[i].2 with chunks := m[i].2.chunks ++ [c] })
        else m[i] := by
    simp [addChunkToMap]
  rcases h i hi' with ⟨ha, hb⟩
  rw [hget]
  by_cases hk : m[i].1 = key
  · rw [if_pos hk]
    exact ⟨ha, hb⟩
  · rw [if_neg hk]
    exact ⟨ha, hb⟩

theorem parseStep_fresh {off : Nat} {m : List (String × Document)} (kb : String) (r : RawRecord)
    (h : MapInv off m) :
    m.any (fun p => decide (p.1 = mkDocId kb r.document_id (off + m.length))) = false := by
  by_contra hany
  rw [Bool.not_eq_false, List.any_eq_true] at hany
  obtain ⟨p, hp, hpk⟩ := hany
  obtain ⟨i, hi, hpe⟩ := List.mem_iff_getElem.mp hp
  have h2 := (h i hi).2
  rw [hpe, of_decide_eq_true hpk, tailNum_mkDocId] at h2
  omega

theorem mapInv_parseStep {off : Nat} {m : List (String × Document)} (kb : String) (r : RawRecord)
    (h : MapInv off m) :
    MapInv off (parseStep kb off m r) ∧ (parseStep kb off m r).length = m.length + 1 := by
  have hfresh := parseStep_fresh kb r h
  have hstep : parseStep kb off m r
      = addChunkToMap (m ++ [(mkDocId kb r.document_id (off + m.length),
          { id := mkDocId kb r.document_id (off + m.length),
            title := mkDocTitle kb r.document_name, chunks := [] })])
          (mkDocId kb r.document_id (off + m.length))
          { content := r.content, similarity := r.score } := by
    simp only [parseStep, hfresh, Bool.false_eq_true, if_false]
  constructor
  · rw [hstep]
    apply mapInv_addChunk
    intro i hi
    have hlen : i < m.length + 1 := by simpa using hi
    by_cases hc : i < m.length
    · rw [List.getElem_append_left hc]
      exact h i hc
    · have hie : i = m.length := by omega
      subst hie
      rw [List.getElem_append_right (le_refl _)]
      simp only [Nat.sub_self, List.getElem_cons_zero]
      exact ⟨trivial, tailNum_mkDocId _ _ _⟩
  · rw [hstep, addChunkToMap_length]
    simp

theorem mapInv_parseLoop {off : Nat} (kb : String) (rs : List RawRecord)
    (m : List (String × Document)) (h : MapInv off m) :
    MapInv off (parseLoop kb off rs m) := by
  induction rs generalizing m with
  | nil => exact h
  | cons r rest ih => exact ih _ (mapInv_parseStep kb r h).1

theorem parse_tailNum (resp : DifyResponse) (kb : String) (off i : Nat)
    (h : i < (_parse_dify_response resp kb off).length) :
    tailNum ((_parse_dify_response resp kb off)[i].id) = off + i := by
  have hinv : MapInv off (parseLoop kb off resp.records []) :=
    mapInv_parseLoop kb resp.records [] (fun i hi => by simp at hi)
  have hlen : i < (parseLoop kb off resp.records []).length := by
    simpa [_parse_dify_response] using h
  have hix := hinv i hlen
  simp only [_parse_dify_response, List.getElem_map]
  rw [hix.1]
  exact hix.2

theorem aggregate_tailNum (fetch : String → QueryOutcome) (ids : List String) :
    ∀ (ctr i : Nat) (h : i < (aggregateDocs fetch ids ctr).length),
      tailNum ((aggregateDocs fetch ids ctr)[i].id) = ctr + i := by
  induction ids with
  | nil => intro ctr i h; simp [aggregateDocs] at h
  | cons kb rest ih =>
    intro ctr i h
    rcases hk : fetch kb with resp | st | _
    · simp only [aggregateDocs, hk] at h ⊢
      by_cases hc : i < (_parse_dify_response resp kb ctr).length
      · rw [List.getElem_append_left hc]
        exact parse_tailNum resp kb ctr i hc
      · have hlen : i < (_parse_dify_response resp kb ctr).length
            + (aggregateDocs fetch rest (ctr + (_parse_dify_response resp kb ctr).length)).length := by
          simpa using h
        rw [List.getElem_append_right (by omega)]
        rw [ih _ _ (by omega)]
        omega
    · simp only [aggregateDocs, hk] at h ⊢
      exact ih ctr i h
    · simp only [aggregateDocs, hk] at h ⊢
      exact ih ctr i h

theorem aggregate_distinct_ids (fetch : String → QueryOutcome) (ids : List String) (ctr : Nat) :
    (aggregateDocs fetch ids ctr).Pairwise (fun a b => a.id ≠ b.id) := by
  rw [List.pairwise_iff_getElem]
  intro i j hi hj hij
  intro heq
  have h1 := aggregate_tailNum fetch ids ctr i hi
  have h2 := aggregate_tailNum fetch ids ctr j hj
  rw [heq, h2] at h1
  omega

/-! Failure isolation: a failed source contributes nothing, so aggregating
over the resolved ids equals aggregating over the successful ones only. -/

theorem aggregateDocs_filter (fetch : String → QueryOutcome) (ids : List String) :
    ∀ ctr : Nat, aggregateDocs fetch (ids.filter (succeedsB fetch)) ctr
      = aggregateDocs fetch ids ctr := by
  induction ids with
  | nil => intro ctr; rfl
  | cons kb rest ih =>
    intro ctr
    rcases hk : fetch kb with resp | st | _
    · rw [List.filter_cons_of_pos (by simp [succeedsB, hk])]
      simp only [aggregateDocs, hk]
      rw [ih]
    · rw [List.filter_cons_of_neg (by simp [succeedsB, hk])]
      simp only [aggregateDocs, hk]
      rw [ih]
    · rw [List.filter_cons_of_neg (by simp [succeedsB, hk])]
      simp only [aggregateDocs, hk]
      rw [ih]

theorem aggregateDocs_all_fail (fetch : String → QueryOutcome) (ids : List String)
    (ctr : Nat) (h : ∀ kb ∈ ids, succeedsB fetch kb = false) :
    aggregateDocs fetch ids ctr = [] := by
  rw [← aggregateDocs_filter]
  have : ids.filter (succeedsB fetch) = [] := by
    rw [List.filter_eq_nil_iff]
    intro kb hkb
    simp [h kb hkb]
  rw [this]
  rfl

/-! The resolved id list has no duplicates, and removing the single failed id
leaves `N - 1` survivors. -/

theorem addKbId_nodup {ids : List String} (kb : Option String) (h : ids.Nodup) :
    (addKbId ids kb).Nodup := by
  match kb with
  | none => exact h
  | some k =>
    show (if k ≠ "" ∧ k ∉ ids then ids ++ [k] else ids).Nodup
    by_cases hc : k ≠ "" ∧ k ∉ ids
    · rw [if_pos hc]
      simp [List.nodup_append, h, hc.2]
    · rw [if_neg hc]
      exact h

theorem collect_fold_nodup (rs : List Resource) : ∀ acc : List String, acc.Nodup →
    (rs.foldl (fun ids r => addKbId ids (_parse_uri r.uri)) acc).Nodup := by
  induction rs with
  | nil => intro acc h; exact h
  | cons r rest ih => intro acc h; exact ih _ (addKbId_nodup _ h)

theorem collectKbIds_nodup (rs : List Resource) : (collectKbIds rs).Nodup :=
  collect_fold_nodup rs [] List.nodup_nil

theorem resolvedIds_nodup (cfg : DifyConfig) (res : List Resource) (dir : DirOutcome)
    (ids : List String) (h : resolvedIds cfg res dir = .ok ids) : ids.Nodup := by
  match res with
  | [] =>
    unfold resolvedIds at h
    rcases hl : list_resources dir none with e | allRes
    · rw [hl] at h; cases h
    · rw [hl] at h
      injection h with h
      rw [← h]
      exact collectKbIds_nodup _
  | r :: rest =>
    unfold resolvedIds at h
    injection h with h
    rw [← h]
    exact collectKbIds_nodup _

theorem filter_ne_length (l : List String) (f : String) (hnd : l.Nodup) (hf : f ∈ l) :
    (l.filter (fun kb => decide (kb ≠ f))).length = l.length - 1 := by
  induction l with
  | nil => cases hf
  | cons x xs ih =>
    rcases List.nodup_cons.mp hnd with ⟨hx, hxs⟩
    rcases List.mem_cons.mp hf with rfl | hf2
    · rw [List.filter_cons_of_neg (by simp)]
      rw [List.filter_eq_self.mpr (fun a ha => by
        simp
        rintro rfl
        exact hx ha)]
      simp
    · have hxf : x ≠ f := by rintro rfl; exact hx hf2
      rw [List.filter_cons_of_pos (by simp [hxf])]
      have hlen : 0 < xs.length := List.length_pos.mpr (List.ne_nil_of_mem hf2)
      simp only [List.length_cons, ih hxs hf2]
      omega

/-! Inversion and reduction helpers for `query_relevant_documents`. -/

theorem qrd_ok (cfg : DifyConfig) (fetch : String → QueryOutcome) (res : List Resource)
    (dir : DirOutcome) (ids : List String)
    (hres : resolvedIds cfg res dir = .ok ids) (hne : ids ≠ []) :
    query_relevant_documents cfg fetch res dir =
      .ok ((sortByDesc docScore (aggregateDocs fetch ids 0)).take (cfg.page_size * ids.length)) := by
  unfold query_relevant_documents
  rw [hres]
  simp only [if_neg hne]

theorem qrd_ok_inv (cfg : DifyConfig) (fetch : String → QueryOutcome) (res : List Resource)
    (dir : DirOutcome) (docs : List Document)
    (h : query_relevant_documents cfg fetch res dir = .ok docs) :
    ∃ ids, resolvedIds cfg res dir = .ok ids ∧ ids ≠ [] ∧
      docs = (sortByDesc docScore (aggregateDocs fetch ids 0)).take (cfg.page_size * ids.length) := by
  unfold query_relevant_documents at h
  rcases hres : resolvedIds cfg res dir with e | ids
  · rw [hres] at h; cases h
  · rw [hres] at h
    by_cases hne : ids = []
    · simp only [if_pos hne] at h
      cases h
    · simp only [if_neg hne] at h
      injection h with h
      exact ⟨ids, rfl, hne, h.symm⟩

/-! Membership in the dedup fold used by target resolution. -/

theorem mem_fold_addKbId (rs : List Resource) : ∀ (acc : List String) (k : String), k ∈ acc →
    k ∈ rs.foldl (fun ids r => addKbId ids (_parse_uri r.uri)) acc := by
  induction rs with
  | nil => intro acc k h; exact h
  | cons r rest ih =>
    intro acc k h
    apply ih
    rcases hp : _parse_uri r.uri with _ | k2
    · simpa [addKbId, hp] using h
    · by_cases hc : k2 ≠ "" ∧ k2 ∉ acc
      · simp only [addKbId, hp, if_pos hc]
        exact List.mem_append_left _ h
      · simp only [addKbId, hp, if_neg hc]
        exact h

theorem mem_collect_of_parse (rs : List Resource) :
    ∀ (acc : List String) (r : Resource) (k : String), r ∈ rs →
      _parse_uri r.uri = some k → k ≠ "" →
      k ∈ rs.foldl (fun ids r => addKbId ids (_parse_uri r.uri)) acc := by
  induction rs with
  | nil => intro acc r k hr; cases hr
  | cons r0 rest ih =>
    intro acc r k hr hp hk
    rcases List.mem_cons.mp hr with rfl | hr2
    · rw [List.foldl_cons]
      apply mem_fold_addKbId
      by_cases hc : k ≠ "" ∧ k ∉ acc
      · simp only [addKbId, hp, if_pos hc]
        simp
      · simp only [addKbId, hp, if_neg hc]
        by_contra hmem
        exact hc ⟨hk, hmem⟩
    · exact ih _ r k hr2 hp hk

/-! Small facts about Python substring containment and the empty query. -/

theorem isPrefixOf_nil_left (l : List Char) : ([] : List Char).isPrefixOf l = true := by
  cases l <;> rfl

theorem pyIn_empty (s : String) : pyIn "" s = true := by
  unfold pyIn
  cases hl : s.data with
  | nil => rfl
  | cons x xs => simp [isPrefixOf_nil_left]

/-! Symbolic computation of the URI codecs on the simple `dify://dataset/{id}`
shape. -/

theorem pySplit_not_mem (c : Char) (l : List Char) (h : c ∉ l) : pySplit c l = [l] := by
  induction l with
  | nil => rfl
  | cons x xs ih =>
    have hx : ¬ (x = c) := fun he => h (he ▸ List.mem_cons_self x xs)
    have hxs : c ∉ xs := fun hm => h (List.mem_cons_of_mem x hm)
    simp only [pySplit, if_neg hx, ih hxs]

theorem takeWhile_ne_of_not_mem (c : Char) (l : List Char) (h : c ∉ l) :
    l.takeWhile (fun x => decide (x ≠ c)) = l := by
  induction l with
  | nil => rfl
  | cons x xs ih =>
    have hx : x ≠ c := fun he => h (he ▸ List.mem_cons_self x xs)
    have hxs : c ∉ xs := fun hm => h (List.mem_cons_of_mem x hm)
    have hd : decide (x ≠ c) = true := by simp [hx]
    rw [List.takeWhile_cons, hd, if_pos rfl, ih hxs]

theorem cleanPath_no_specials (l : List Char) (h2 : '?' ∉ l) (h3 : '#' ∉ l) :
    cleanPath l = l := by
  unfold cleanPath
  rw [takeWhile_ne_of_not_mem '#' l h3, takeWhile_ne_of_not_mem '?' l h2]

theorem cleanPath_cons_slash (l : List Char) :
    cleanPath ('/' :: l) = '/' :: cleanPath l := by
  unfold cleanPath
  rw [List.takeWhile_cons, show decide (('/' : Char) ≠ '#') = true from rfl]
  simp only [if_true]
  rw [List.takeWhile_cons, show decide (('/' : Char) ≠ '?') = true from rfl]
  simp only [if_true]

theorem urlparse_dify_dataset (l : List Char) (h2 : '?' ∉ l) (h3 : '#' ∉ l) :
    urlparse ("dify://dataset/".data ++ l) = ⟨"dify".data, "dataset".data, '/' :: l⟩ := by
  have hs : splitScheme ("dify://dataset/".data ++ l)
      = ("dify".data, "//dataset/".data ++ l) := rfl
  have hn : splitNetloc ("dataset/".data ++ l) = ("dataset".data, '/' :: l) := rfl
  show urlparseAux (splitScheme ("dify://dataset/".data ++ l)).1
      (splitScheme ("dify://dataset/".data ++ l)).2 = _
  rw [hs]
  show urlparseAux "dify".data ('/' :: '/' :: ("dataset/".data ++ l)) = _
  show (⟨"dify".data, (splitNetloc ("dataset/".data ++ l)).1,
      cleanPath (splitNetloc ("dataset/".data ++ l)).2⟩ : UrlParts) = _
  rw [hn]
  show (⟨"dify".data, "dataset".data, cleanPath ('/' :: l)⟩ : UrlParts) = _
  rw [cleanPath_cons_slash, cleanPath_no_specials l h2 h3]

/-! Claim theorems. -/

/-- C1: the claim says all records of one response sharing a `document_id`
are grouped into a single `Document` accumulating their chunks — in
particular `exRespA` (two records, scores 9/10 and 4/10, same
`document_id = d1`) should yield one document with two chunks.  Evaluating
the embedded normalizer shows the code instead creates a fresh single-chunk
document per record (`kbA_d1_0` and `kbA_d1_1`): the running
`len(doc_map)` suffix is baked into the grouping key before the membership
test, so the key is always fresh and the claimed grouping never happens. -/
theorem c1_normalizer_splits_per_record :
    _parse_dify_response exRespA "kbA" 0 = [exDocA0, exDocA1]
    ∧ (_parse_dify_response exRespA "kbA" 0).length = 2
    ∧ ∀ d ∈ _parse_dify_response exRespA "kbA" 0, d.chunks.length = 1 :=
  ⟨by decide, by decide, by decide⟩

/-- C2: the claim says the strict parser succeeds on
`dify://knowledge_base/kb1/document/doc7` with `(kb1, doc7)`.  Evaluating the
embedded `parse_uri` shows it raises `InvalidURIError` on exactly that URI
(the `knowledge_base` segment lands in the URL authority, so the path check
`path_parts[1] == "knowledge_base"` sees `kb1`); it does raise on
`dify://dataset/abc123` and on a non-dify scheme as claimed, and the shape
that actually succeeds needs an extra authority segment. -/
theorem c2_strict_uri_eval :
    parse_uri "dify://knowledge_base/kb1/document/doc7" =
      .error (.invalidFormat "dify://knowledge_base/kb1/document/doc7")
    ∧ parse_uri "dify://dataset/abc123" = .error (.invalidFormat "dify://dataset/abc123")
    ∧ parse_uri "https://knowledge_base/kb1/document/doc7" =
        .error (.invalidScheme "https://knowledge_base/kb1/document/doc7")
    ∧ parse_uri "dify://x/knowledge_base/kb1/document/doc7" = .ok ("kb1", "doc7") :=
  ⟨by decide, by decide, by decide, by decide⟩

/-- C3: with at least two resolved knowledge-base ids of which exactly one
fails and the rest succeed, `retrieve` does not raise: it returns exactly the
ranked, budget-truncated union of the surviving sources' documents (the
aggregation over the successful ids only), and the survivors number
`N - 1`. -/
theorem c3_partial_failure_isolated (cfg : DifyConfig) (fetch : String → QueryOutcome)
    (res : List Resource) (dir : DirOutcome) (ids : List String) (f : String)
    (hres : resolvedIds cfg res dir = .ok ids) (hN : 2 ≤ ids.length)
    (hf : f ∈ ids) (hfail : succeedsB fetch f = false)
    (hok : ∀ kb ∈ ids, kb ≠ f → succeedsB fetch kb = true) :
    query_relevant_documents cfg fetch res dir =
      .ok ((sortByDesc docScore
            (aggregateDocs fetch (ids.filter (succeedsB fetch)) 0)).take
          (cfg.page_size * ids.length))
    ∧ (ids.filter (succeedsB fetch)).length = ids.length - 1 := by
  have hne : ids ≠ [] := by rintro rfl; simp at hN
  have hfeq : ids.filter (succeedsB fetch) = ids.filter (fun kb => decide (kb ≠ f)) := by
    apply List.filter_congr
    intro kb hkb
    by_cases hk : kb = f
    · subst hk; simp [hfail]
    · simp [hk, hok kb hkb hk]
  constructor
  · rw [qrd_ok cfg fetch res dir ids hres hne, aggregateDocs_filter]
  · rw [hfeq]
    exact filter_ne_length ids f (resolvedIds_nodup cfg res dir ids hres) hf

/-- Witness for C3: two explicit sources, `kbB` down, `kbA` healthy. -/
theorem c3_witness :
    query_relevant_documents exCfg exFetchFail exResources exDir =
      .ok ((sortByDesc docScore
            (aggregateDocs exFetchFail
              ((["kbA", "kbB"] : List String).filter (succeedsB exFetchFail)) 0)).take
          (exCfg.page_size * (["kbA", "kbB"] : List String).length))
    ∧ ((["kbA", "kbB"] : List String).filter (succeedsB exFetchFail)).length
        = (["kbA", "kbB"] : List String).length - 1 :=
  c3_partial_failure_isolated exCfg exFetchFail exResources exDir ["kbA", "kbB"] "kbB"
    (by decide) (by decide) (by decide) (by decide) (by decide)

/-- C4: an empty resolved id set makes `retrieve` raise the
no-knowledge-bases error, whereas a non-empty resolved set whose every
source fails makes it return the empty list rather than raising. -/
theorem c4_empty_targets_vs_all_failed (cfg : DifyConfig) (fetch : String → QueryOutcome)
    (res : List Resource) (dir : DirOutcome) :
    (resolvedIds cfg res dir = .ok [] →
      query_relevant_documents cfg fetch res dir = .error .noKnowledgeBases)
    ∧ (∀ ids, resolvedIds cfg res dir = .ok ids → ids ≠ [] →
        (∀ kb ∈ ids, succeedsB fetch kb = false) →
        query_relevant_documents cfg fetch res dir = .ok []) := by
  constructor
  · intro h
    unfold query_relevant_documents
    rw [h]
    simp
  · intro ids hres hne hall
    rw [qrd_ok cfg fetch res dir ids hres hne]
    rw [aggregateDocs_all_fail fetch ids 0 hall]
    simp [sortByDesc]

/-- Witness for C4: undecodable resources raise; two healthy targets with a
dead network return the empty list. -/
theorem c4_witness :
    query_relevant_documents exCfg exFetchDown exBadResources exDir = .error .noKnowledgeBases
    ∧ query_relevant_documents exCfg exFetchDown exResources exDir = .ok [] :=
  ⟨(c4_empty_targets_vs_all_failed exCfg exFetchDown exBadResources exDir).1 (by decide),
   (c4_empty_targets_vs_all_failed exCfg exFetchDown exResources exDir).2 ["kbA", "kbB"]
     (by decide) (by decide) (by decide)⟩

/-- C5: the result of `retrieve` never exceeds `page_size` times the number
of knowledge-base ids fixed at resolution time, regardless of which sources
later fail. -/
theorem c5_result_budget (cfg : DifyConfig) (fetch : String → QueryOutcome)
    (res : List Resource) (dir : DirOutcome) (ids : List String) (docs : List Document)
    (hres : resolvedIds cfg res dir = .ok ids)
    (hdocs : query_relevant_documents cfg fetch res dir = .ok docs) :
    docs.length ≤ cfg.page_size * ids.length := by
  obtain ⟨ids2, hres2, hne, hdocs2⟩ := qrd_ok_inv cfg fetch res dir docs hdocs
  rw [hres] at hres2
  injection hres2 with he
  subst he
  rw [hdocs2]
  exact List.length_take_le _ _

/-- Witness for C5: the sample run returns three documents, under the budget
of ten times two. -/
theorem c5_witness :
    ([exDocA0, exDocB2, exDocA1] : List Document).length
      ≤ exCfg.page_size * (["kbA", "kbB"] : List String).length :=
  c5_result_budget exCfg exFetch exResources exDir ["kbA", "kbB"] [exDocA0, exDocB2, exDocA1]
    (by decide) (by decide)

/-- C6: the returned sequence is sorted by descending maximum chunk
similarity; a chunkless document scores `0`; and the sort is stable: for
every key value, the returned documents with that key form a prefix of the
arrival-ordered (aggregation-ordered) documents with that key. -/
theorem c6_ranking_stable (cfg : DifyConfig) (fetch : String → QueryOutcome)
    (res : List Resource) (dir : DirOutcome) (ids : List String) (docs : List Document)
    (hres : resolvedIds cfg res dir = .ok ids)
    (hdocs : query_relevant_documents cfg fetch res dir = .ok docs) :
    docs.Pairwise (fun a b => docScore b ≤ docScore a)
    ∧ (∀ k : ℚ, List.IsPrefix (docs.filter (fun d => decide (docScore d = k)))
        ((aggregateDocs fetch ids 0).filter (fun d => decide (docScore d = k))))
    ∧ (∀ d : Document, d.chunks = [] → docScore d = 0) := by
  obtain ⟨ids2, hres2, hne, hdocs2⟩ := qrd_ok_inv cfg fetch res dir docs hdocs
  rw [hres] at hres2
  injection hres2 with he
  subst he
  refine ⟨?_, ?_, ?_⟩
  · rw [hdocs2]
    exact (sortByDesc_sorted docScore _).sublist (List.take_sublist _ _)
  · intro k
    rw [hdocs2]
    have hpre := filter_take_isPrefix (fun d => decide (docScore d = k))
      (sortByDesc docScore (aggregateDocs fetch ids 0)) (cfg.page_size * ids.length)
    rwa [sortByDesc_filter] at hpre
  · intro d hd
    simp [docScore, hd]

/-- Witness for C6: the sample result is sorted 9/10, 7/10, 4/10; the top-key
documents form a prefix of their arrival order; a chunkless document scores
zero. -/
theorem c6_witness :
    ([exDocA0, exDocB2, exDocA1] : List Document).Pairwise (fun a b => docScore b ≤ docScore a)
    ∧ List.IsPrefix
        (([exDocA0, exDocB2, exDocA1] : List Document).filter
          (fun d => decide (docScore d = mkRat 9 10)))
        ((aggregateDocs exFetch ["kbA", "kbB"] 0).filter
          (fun d => decide (docScore d = mkRat 9 10)))
    ∧ docScore ⟨"d", "t", []⟩ = 0 :=
  ⟨(c6_ranking_stable exCfg exFetch exResources exDir ["kbA", "kbB"]
      [exDocA0, exDocB2, exDocA1] (by decide) (by decide)).1,
   (c6_ranking_stable exCfg exFetch exResources exDir ["kbA", "kbB"]
      [exDocA0, exDocB2, exDocA1] (by decide) (by decide)).2.1 (mkRat 9 10),
   (c6_ranking_stable exCfg exFetch exResources exDir ["kbA", "kbB"]
      [exDocA0, exDocB2, exDocA1] (by decide) (by decide)).2.2 ⟨"d", "t", []⟩ rfl⟩

/-- C7: the document ids in any result of `retrieve` are pairwise distinct:
every id ends in a `_{n}` suffix equal to the document's global creation
index, which increases across records and across sources. -/
theorem c7_document_ids_unique (cfg : DifyConfig) (fetch : String → QueryOutcome)
    (res : List Resource) (dir : DirOutcome) (docs : List Document)
    (hdocs : query_relevant_documents cfg fetch res dir = .ok docs) :
    docs.Pairwise (fun a b => a.id ≠ b.id) := by
  obtain ⟨ids, hres, hne, hdocs2⟩ := qrd_ok_inv cfg fetch res dir docs hdocs
  rw [hdocs2]
  have hsymm : Symmetric (fun a b : Document => a.id ≠ b.id) := by
    intro a b h he
    exact h he.symm
  have hpair : (sortByDesc docScore (aggregateDocs fetch ids 0)).Pairwise
      (fun a b => a.id ≠ b.id) :=
    ((sortByDesc_perm docScore (aggregateDocs fetch ids 0)).pairwise_iff @hsymm).mpr
      (aggregate_distinct_ids fetch ids 0)
  exact hpair.sublist (List.take_sublist _ _)

/-- Witness for C7: the sample result carries three distinct ids, even though
both sources report the same original `document_id = d1`. -/
theorem c7_witness :
    ([exDocA0, exDocB2, exDocA1] : List Document).Pairwise (fun a b => a.id ≠ b.id) :=
  c7_document_ids_unique exCfg exFetch exResources exDir [exDocA0, exDocB2, exDocA1]
    (by decide)

/-- C8: the lenient decoder is total and returns `none` for every URI whose
parsed scheme is not `dify`; on the simple form `dify://dataset/{id}` (id
free of `/`, `?`, `#`) it returns the id, the last path segment; in
particular `dify://dataset/abc123 ↦ abc123` and
`https://dataset/abc123 ↦ none`. -/
theorem c8_lenient_decoder :
    (∀ uri : String, (urlparse uri.data).scheme ≠ "dify".data → _parse_uri uri = none)
    ∧ (∀ s : String, '/' ∉ s.data → '?' ∉ s.data → '#' ∉ s.data →
        _parse_uri ("dify://dataset/" ++ s) = some s)
    ∧ _parse_uri "dify://dataset/abc123" = some "abc123"
    ∧ _parse_uri "https://dataset/abc123" = none := by
  refine ⟨?_, ?_, by decide, by decide⟩
  · intro uri h
    unfold _parse_uri
    rw [if_neg h]
  · intro s h1 h2 h3
    unfold _parse_uri
    have hd : ("dify://dataset/" ++ s).data = "dify://dataset/".data ++ s.data := rfl
    rw [hd, urlparse_dify_dataset s.data h2 h3]
    rw [if_pos rfl]
    have hsplit : pySplit '/' ('/' :: s.data) = [[], s.data] := by
      show ([] :: pySplit '/' s.data : List (List Char)) = [[], s.data]
      rw [pySplit_not_mem '/' s.data h1]
    rw [hsplit]
    rfl

/-- Witness for C8: a non-dify scheme maps to `none`; a concrete simple-form
id round-trips. -/
theorem c8_witness :
    _parse_uri "ftp://dataset/abc123" = none
    ∧ _parse_uri ("dify://dataset/" ++ "abc123") = some "abc123" :=
  ⟨c8_lenient_decoder.1 "ftp://dataset/abc123" (by decide),
   c8_lenient_decoder.2.1 "abc123" (by decide) (by decide) (by decide)⟩

/-- C9: with a non-null query, every resource returned by `list_resources`
passes the client-side case-insensitive substring filter: the lowercased
query occurs in the lowercased title or in the lowercased description. -/
theorem c9_client_filter (resp : DatasetsResponse) (q : String) (rs : List Resource)
    (r : Resource) (h : list_resources (.ok resp) (some q) = .ok rs) (hr : r ∈ rs) :
    (pyIn (pyLower q) (pyLower r.title) || pyIn (pyLower q) (pyLower r.description)) = true := by
  unfold list_resources at h
  injection h with h
  subst h
  rcases List.mem_map.mp hr with ⟨ds, hds, rfl⟩
  have hk : keepDataset (some q) ds = true := List.of_mem_filter hds
  by_cases hq : q = ""
  · subst hq
    have h0 : pyLower "" = "" := rfl
    simp [datasetResource, h0, pyIn_empty]
  · simp only [keepDataset, if_neg hq] at hk
    simpa [datasetResource] using hk

/-- Witness for C9: querying `Alpha` keeps the `Alpha One` dataset, whose
lowered title contains the lowered query. -/
theorem c9_witness :
    (pyIn (pyLower "Alpha") (pyLower "Alpha One")
      || pyIn (pyLower "Alpha") (pyLower "general")) = true :=
  c9_client_filter exDatasets "Alpha" [⟨"dify://dataset/1", "Alpha One", "general"⟩]
    ⟨"dify://dataset/1", "Alpha One", "general"⟩ (by decide) (by decide)

/-- C10: with a non-empty explicit resource list, target resolution ignores
both the directory and `max_knowledge_bases` (the cap applies only to the
directory-fallback path), and every resource whose URI decodes to a
non-empty id contributes that id to the query targets. -/
theorem c10_explicit_resources_uncapped (cfg cfg2 : DifyConfig) (res : List Resource)
    (dir dir2 : DirOutcome) (hne : res ≠ []) :
    resolvedIds cfg res dir = .ok (collectKbIds res)
    ∧ resolvedIds cfg res dir = resolvedIds cfg2 res dir2
    ∧ ∀ r ∈ res, ∀ k, _parse_uri r.uri = some k → k ≠ "" → k ∈ collectKbIds res := by
  match res, hne with
  | r0 :: rest, _ =>
    refine ⟨rfl, rfl, ?_⟩
    intro r hr k hp hk
    exact mem_collect_of_parse (r0 :: rest) [] r k hr hp hk

/-- Witness for C10: three explicit resources under a cap of one still
resolve to all three ids, independent of the cap and the directory. -/
theorem c10_witness :
    resolvedIds ⟨10, 1⟩ exThreeResources exDir = .ok (collectKbIds exThreeResources)
    ∧ resolvedIds ⟨10, 1⟩ exThreeResources exDir
        = resolvedIds ⟨10, 3⟩ exThreeResources (.ok exDatasets)
    ∧ "kb3" ∈ collectKbIds exThreeResources :=
  ⟨(c10_explicit_resources_uncapped ⟨10, 1⟩ ⟨10, 3⟩ exThreeResources exDir
      (.ok exDatasets) (by decide)).1,
   (c10_explicit_resources_uncapped ⟨10, 1⟩ ⟨10, 3⟩ exThreeResources exDir
      (.ok exDatasets) (by decide)).2.1,
   (c10_explicit_resources_uncapped ⟨10, 1⟩ ⟨10, 3⟩ exThreeResources exDir
      (.ok exDatasets) (by decide)).2.2 ⟨"dify://dataset/kb3", "3", ""⟩ (by decide)
     "kb3" (by decide) (by decide)⟩

end DifyFlow
